import Mathlib

/-!
Verification development for the github-scanner repository
(gather-accessibility-issues.js and its newer variant).

The JavaScript source is shallowly embedded: strings become lists of
characters, the five global regular expressions of WCAG_PATTERNS become
executable scanners with the same leftmost, non-overlapping, greedy
semantics that a repeated exec call on a global JS regex has, the
paginated fetch loop becomes a fuel-indexed loop over an abstract paged
operation, and the orchestrator becomes a fold over repositories and
issues threading the processed-identifier set and the output records.
-/

namespace GithubScanner

/-- Strings are modelled as lists of characters. -/
abbrev Str := List Char

/-- The character class of the JS regex escape for whitespace, restricted
to the usual ASCII whitespace characters plus the no-break space. -/
def isSpaceJS (c : Char) : Bool :=
  c = ' ' || c = '\t' || c = '\n' || c = '\r' ||
  c = '\x0b' || c = '\x0c' || c = ' '

/-- The character class of the bracket expression with digits and a dot,
used by the WCAG and SC patterns. -/
def isDigitDot (c : Char) : Bool :=
  c.isDigit || c = '.'

/-- JS word characters (letters, digits, underscore), as used by the
word-boundary assertion. -/
def isWordChar (c : Char) : Bool :=
  c.isAlpha || c.isDigit || c = '_'

/-- The letter A, case-insensitively (the regexes carry the i flag). -/
def isA (c : Char) : Bool :=
  c = 'A' || c = 'a'

/-- Case-insensitive comparison of one character against a lowercase
target, for the literal parts of the case-insensitive patterns. -/
def lowEq (c target : Char) : Bool :=
  c.toLower = target

/-- JS String.prototype.toLowerCase, on ASCII strings. -/
def lowerStr (s : Str) : Str :=
  s.map Char.toLower

/-- Boolean prefix test on character lists. -/
def isPrefixB : Str → Str → Bool
  | [], _ => true
  | _ :: _, [] => false
  | a :: xs, b :: ys => a == b && isPrefixB xs ys

/-- JS String.prototype.includes: substring containment. -/
def substrB (needle : Str) : Str → Bool
  | [] => needle.isEmpty
  | c :: rest => isPrefixB needle (c :: rest) || substrB needle rest

/-- Length of the match of the first pattern of WCAG_PATTERNS, the WCAG
pattern (literal WCAG, optional whitespace, digits and dots, optional
whitespace, one to three letters A, all case-insensitive), when it
matches at the head of the list; 0 when it does not match here. -/
def matchWCAGLen (l : Str) : Nat :=
  match l with
  | w :: c :: a :: g :: rest =>
    if lowEq w 'w' && lowEq c 'c' && lowEq a 'a' && lowEq g 'g' then
      let s1 := rest.takeWhile isSpaceJS
      let r1 := rest.drop s1.length
      let d := r1.takeWhile isDigitDot
      if d.isEmpty then 0 else
      let r2 := r1.drop d.length
      let s2 := r2.takeWhile isSpaceJS
      let r3 := r2.drop s2.length
      let asRun := (r3.takeWhile isA).take 3
      if asRun.isEmpty then 0
      else 4 + s1.length + d.length + s2.length + asRun.length
    else 0
  | _ => 0

/-- Length of the match of the second pattern of WCAG_PATTERNS, the SC
pattern (literal SC, optional whitespace, digits and dots,
case-insensitive), at the head of the list; 0 when no match. -/
def matchSCLen (l : Str) : Nat :=
  match l with
  | s :: c :: rest =>
    if lowEq s 's' && lowEq c 'c' then
      let s1 := rest.takeWhile isSpaceJS
      let r1 := rest.drop s1.length
      let d := r1.takeWhile isDigitDot
      if d.isEmpty then 0 else 2 + s1.length + d.length
    else 0
  | _ => 0

/-- The word-boundary assertion before a match position: satisfied at the
start of the text or after a non-word character. -/
def boundaryOk (prev : Option Char) : Bool :=
  match prev with
  | none => true
  | some c => !isWordChar c

/-- Length of the match of the third pattern of WCAG_PATTERNS, a dotted
triple of integers between word boundaries, at the head of the list
given the character preceding it; 0 when no match. -/
def matchTripleLen (prev : Option Char) (l : Str) : Nat :=
  if !boundaryOk prev then 0 else
  let d1 := l.takeWhile Char.isDigit
  if d1.isEmpty then 0 else
  match l.drop d1.length with
  | '.' :: r2 =>
    let d2 := r2.takeWhile Char.isDigit
    if d2.isEmpty then 0 else
    match r2.drop d2.length with
    | '.' :: r4 =>
      let d3 := r4.takeWhile Char.isDigit
      if d3.isEmpty then 0 else
      let after := r4.drop d3.length
      if (match after with | [] => true | c :: _ => !isWordChar c) then
        d1.length + 1 + d2.length + 1 + d3.length
      else 0
    | _ => 0
  | _ => 0

/-- The repeated-exec loop for the WCAG pattern: leftmost match, then
continue after it. Fuel-indexed for executability; fuel equal to the
length of the text suffices since every step consumes at least one
character. -/
def scanWCAGGo : Nat → Str → List Str
  | 0, _ => []
  | fuel + 1, l =>
    match l with
    | [] => []
    | c :: rest =>
      let n := matchWCAGLen (c :: rest)
      if n = 0 then scanWCAGGo fuel rest
      else (c :: rest).take n :: scanWCAGGo fuel ((c :: rest).drop n)

/-- All matches of the WCAG pattern in a text, in order. -/
def scanWCAGAll (t : Str) : List Str :=
  scanWCAGGo t.length t

/-- The repeated-exec loop for the SC pattern. -/
def scanSCGo : Nat → Str → List Str
  | 0, _ => []
  | fuel + 1, l =>
    match l with
    | [] => []
    | c :: rest =>
      let n := matchSCLen (c :: rest)
      if n = 0 then scanSCGo fuel rest
      else (c :: rest).take n :: scanSCGo fuel ((c :: rest).drop n)

/-- All matches of the SC pattern in a text, in order. -/
def scanSCAll (t : Str) : List Str :=
  scanSCGo t.length t

/-- The repeated-exec loop for the dotted-triple pattern, threading the
character preceding the current position for the word-boundary check. -/
def scanTripleGo : Nat → Option Char → Str → List Str
  | 0, _, _ => []
  | fuel + 1, prev, l =>
    match l with
    | [] => []
    | c :: rest =>
      let n := matchTripleLen prev (c :: rest)
      if n = 0 then scanTripleGo fuel (some c) rest
      else
        let m := (c :: rest).take n
        m :: scanTripleGo fuel m.getLast? ((c :: rest).drop n)

/-- All matches of the dotted-triple pattern in a text, in order. -/
def scanTripleAll (t : Str) : List Str :=
  scanTripleGo t.length none t

/-- The repeated-exec loop for the literal AA pattern (case-insensitive). -/
def scanAAGo : Nat → Str → List Str
  | 0, _ => []
  | fuel + 1, l =>
    match l with
    | [] => []
    | [_] => []
    | a :: b :: rest =>
      if isA a && isA b then [a, b] :: scanAAGo fuel rest
      else scanAAGo fuel (b :: rest)

/-- All matches of the literal AA pattern in a text, in order. -/
def scanAAAll (t : Str) : List Str :=
  scanAAGo t.length t

/-- The repeated-exec loop for the literal A pattern (case-insensitive). -/
def scanAGo : Str → List Str
  | [] => []
  | c :: rest => if isA c then [c] :: scanAGo rest else scanAGo rest

/-- All matches of the literal A pattern in a text, in order. -/
def scanAAll (t : Str) : List Str :=
  scanAGo t

/-- Collapse every maximal run of whitespace to a single space, the JS
replace of repeated whitespace by one space. -/
def collapseWs : Str → Str
  | [] => []
  | c :: r =>
    match r with
    | [] => [if isSpaceJS c then ' ' else c]
    | d :: _ =>
      if isSpaceJS c && isSpaceJS d then collapseWs r
      else (if isSpaceJS c then ' ' else c) :: collapseWs r

/-- JS String.prototype.trim: strip whitespace from both ends. -/
def trimWs (l : Str) : Str :=
  ((l.dropWhile isSpaceJS).reverse.dropWhile isSpaceJS).reverse

/-- Normalization applied to every raw match before insertion into the
result set: uppercase, collapse whitespace runs, trim. -/
def normalizeMatch (m : Str) : Str :=
  trimWs (collapseWs (m.map Char.toUpper))

/-- First-occurrence deduplication, the insertion-order semantics of a JS
Set, with an accumulator of already-seen values. -/
def dedupGo (seen : List Str) : List Str → List Str
  | [] => []
  | x :: xs =>
    if x ∈ seen then dedupGo seen xs
    else x :: dedupGo (x :: seen) xs

/-- First-occurrence deduplication of a list of strings. -/
def dedupKeepFirst (l : List Str) : List Str :=
  dedupGo [] l

/-- The concatenated raw matches of the five WCAG_PATTERNS over a text,
in pattern order then text order, as the exec loops produce them. -/
def wcagMatches (t : Str) : List Str :=
  scanWCAGAll t ++ scanSCAll t ++ scanTripleAll t ++ scanAAAll t ++ scanAAll t

/-- findWcagScInText from the source: absent or empty text yields the
empty list, otherwise every pattern is scanned over the full text, each
match is normalized and inserted into a set, and the set is returned in
insertion order. -/
def findWcagScInText (text : Option Str) : List Str :=
  match text with
  | none => []
  | some t =>
    if t.isEmpty then []
    else dedupKeepFirst ((wcagMatches t).map normalizeMatch)

/-- The classified errors a paged API call can produce: HTTP 404, HTTP
403 with the remaining rate quota at 0 carrying the reset time, and any
other error. -/
inductive FetchErr where
  | notFound
  | rateLimited (reset : Nat)
  | other
  deriving DecidableEq, Repr

/-- Console output produced by the fetch loops: the 404 warning, the
rate-limit error report, and the generic page-fetch error. -/
inductive LogEvent where
  | warnNotFound (page : Nat)
  | errRateLimit (reset : Nat)
  | errFetchPage (page : Nat)
  deriving DecidableEq, Repr

/-- Outcome of a whole paged fetch: the accumulated items, or the fatal
process exit on rate-limit exhaustion carrying the reset time. -/
inductive FetchOut (α : Type) where
  | ok (items : List α)
  | fatal (reset : Nat)
  deriving DecidableEq, Repr

/-- The loop of fetchAllPages from the newer script (part_000). The
abstract operation maps a page number to a page of items or an error;
the page size is fixed at 100. One fuel unit is spent per call. The
result carries the outcome, the number of calls performed, and the
console output. The loop body accumulates a nonempty page and stops on
a page shorter than 100; it stops with the accumulated items on a 404
(after a warning) and on any other error (after an error line), and
exits the process on rate-limit exhaustion. The page variable is
never incremented, exactly as in the source. -/
def fetchPagesV0 (op : Nat → Except FetchErr (List α)) :
    Nat → Nat → List α → Nat → Option (FetchOut α × Nat × List LogEvent)
  | 0, _, _, _ => none
  | fuel + 1, page, acc, calls =>
    match op page with
    | .ok data =>
      if 0 < data.length then
        if data.length < 100 then some (.ok (acc ++ data), calls + 1, [])
        else fetchPagesV0 op fuel page (acc ++ data) (calls + 1)
      else some (.ok acc, calls + 1, [])
    | .error .notFound => some (.ok acc, calls + 1, [.warnNotFound page])
    | .error (.rateLimited r) => some (.fatal r, calls + 1, [.errRateLimit r])
    | .error .other => some (.ok acc, calls + 1, [.errFetchPage page])

/-- fetchAllPages of the newer script, started at page 1 with an empty
accumulator. -/
def fetchAllPagesV0 (op : Nat → Except FetchErr (List α)) (fuel : Nat) :
    Option (FetchOut α × Nat × List LogEvent) :=
  fetchPagesV0 op fuel 1 [] 0

/-- The loop of fetchAllPages from the older script
(gather-accessibility-issues.js). It increments the page after every
nonempty page and stops only on an empty page; every error, rate-limit
included, is logged generically and stops the fetch with the
accumulated items. -/
def fetchPagesV1 (op : Nat → Except FetchErr (List α)) :
    Nat → Nat → List α → Nat → Option (List α × Nat × List LogEvent)
  | 0, _, _, _ => none
  | fuel + 1, page, acc, calls =>
    match op page with
    | .ok data =>
      if 0 < data.length then fetchPagesV1 op fuel (page + 1) (acc ++ data) (calls + 1)
      else some (acc, calls + 1, [])
    | .error _ => some (acc, calls + 1, [.errFetchPage page])

/-- fetchAllPages of the older script, started at page 1 with an empty
accumulator. -/
def fetchAllPagesV1 (op : Nat → Except FetchErr (List α)) (fuel : Nat) :
    Option (List α × Nat × List LogEvent) :=
  fetchPagesV1 op fuel 1 [] 0

/-- A repository as used by the orchestrator: name, owner login, fork
flag. -/
structure Repo where
  name : Str
  ownerLogin : Str
  fork : Bool
  deriving DecidableEq, Repr

/-- An issue as returned by the issues listing: the fields the
orchestrator reads. The body and the author login are optional; the
pull-request marker is the presence of the pull_request key. -/
structure Issue where
  id : Nat
  number : Nat
  title : Str
  body : Option Str
  labels : List Str
  pullRequest : Bool
  commentCount : Nat
  state : Str
  user : Option Str
  createdAt : Str
  updatedAt : Str
  htmlUrl : Str
  deriving DecidableEq, Repr

/-- A comment as returned by the comments listing: optional author
login and optional body. -/
structure Comment where
  user : Option Str
  body : Option Str
  deriving DecidableEq, Repr

/-- One output row as pushed onto issuesData by the newer script. -/
structure ExportRecord where
  wcagSc : Option Str
  issueId : Str
  issueTitle : Str
  issueUrl : Str
  project : Str
  status : Str
  priority : Option Str
  component : Option Str
  version : Option Str
  reporter : Str
  created : Str
  updated : Str
  comments : Nat
  hasFork : Str
  lastCommenter : Option Str
  extractedAt : Str
  deriving DecidableEq, Repr

/-- The abstract paged provider the orchestrator talks to: the three
paged listings, each indexed by its parameters and a page number, plus
the extraction timestamp of the run. -/
structure Env where
  reposOp : Nat → Except FetchErr (List Repo)
  issuesOp : Str → Str → Nat → Except FetchErr (List Issue)
  commentsOp : Str → Str → Nat → Nat → Except FetchErr (List Comment)
  extractedAt : Str

/-- The mutable state of a scan: the set of already processed issue
identifiers and the output records in push order. -/
structure ScanState where
  processed : List Nat
  records : List ExportRecord
  deriving DecidableEq, Repr

/-- Result of one orchestrator step: the process exit on rate-limit
exhaustion, or the updated state. -/
inductive StepRes where
  | fatal (reset : Nat)
  | cont (st : ScanState)
  deriving DecidableEq, Repr

/-- Result of a whole run. -/
inductive RunOut where
  | fatal (reset : Nat)
  | done (records : List ExportRecord)
  deriving DecidableEq, Repr

/-- The lowercased label names of an issue. -/
def labelNamesLower (issue : Issue) : List Str :=
  issue.labels.map lowerStr

/-- hasRelevantLabel from the newer script: the lowercased label names
contain the lowercased primary label, or the lowercased name of some
additional label. -/
def hasRelevantLabel (issue : Issue) (primary : Str) (adds : List Str) : Bool :=
  (labelNamesLower issue).any (fun y => y == lowerStr primary) ||
  adds.any (fun a => (labelNamesLower issue).any (fun y => y == lowerStr a))

/-- isKeywordFoundInText from the newer script: the lowercased title, or
the lowercased body when present, contains the substring used for
keyword detection. -/
def keywordFound (issue : Issue) : Bool :=
  substrB "accessibility".toList (lowerStr issue.title) ||
  (match issue.body with
   | some b => substrB "accessibility".toList (lowerStr b)
   | none => false)

/-- The inclusion decision of the classifier: a relevant label or the
keyword in title or body. -/
def includeIssue (issue : Issue) (primary : Str) (adds : List Str) : Bool :=
  hasRelevantLabel issue primary adds || keywordFound issue

/-- Last element of a list, when there is one. -/
def lastOpt : List α → Option α
  | [] => none
  | a :: r =>
    match r with
    | [] => some a
    | _ :: _ => lastOpt r

/-- Decimal digits of a natural number, the JS template interpolation of
the issue number. -/
def natToStr (n : Nat) : Str :=
  (toString n).toList

/-- Join the found criteria with a semicolon and a space. -/
def joinSemi : List Str → Str
  | [] => []
  | s :: rest =>
    match rest with
    | [] => s
    | _ :: _ => s ++ "; ".toList ++ joinSemi rest

/-- The record pushed for one qualifying issue in the newer script: the
joined criteria or null, the composite repository-name dash
issue-number identifier, copied fields, the always-null reserved
columns, the N/A fallback for a missing reporter, the Yes/No fork flag,
and the run timestamp. -/
def buildRecord (extractedAt : Str) (repo : Repo) (issue : Issue)
    (lastCommenter : Option Str) (wcag : List Str) : ExportRecord :=
  { wcagSc := if 0 < wcag.length then some (joinSemi wcag) else none
  , issueId := repo.name ++ ('-' :: natToStr issue.number)
  , issueTitle := issue.title
  , issueUrl := issue.htmlUrl
  , project := repo.name
  , status := issue.state
  , priority := none
  , component := none
  , version := none
  , reporter := issue.user.getD "N/A".toList
  , created := issue.createdAt
  , updated := issue.updatedAt
  , comments := issue.commentCount
  , hasFork := if repo.fork then "Yes".toList else "No".toList
  , lastCommenter := lastCommenter
  , extractedAt := extractedAt }

/-- The per-issue step of the orchestrator loop in the newer script:
skip pull requests, skip already processed identifiers, record the
identifier, apply the classifier, fetch the comments when the issue has
any, take the last commenter (with the N/A fallback for a missing
author), collect the criteria from the comment bodies, the issue body
and the issue title, deduplicate, and push the record. A rate-limit
exhaustion inside the comment fetch exits the process. -/
def processIssue (env : Env) (fuel : Nat) (primary : Str) (adds : List Str)
    (repo : Repo) (st : ScanState) (issue : Issue) : Option StepRes :=
  if issue.pullRequest then some (.cont st) else
  if issue.id ∈ st.processed then some (.cont st) else
  let st1 : ScanState := { st with processed := issue.id :: st.processed }
  if !includeIssue issue primary adds then some (.cont st1) else
  let fr : Option (FetchOut Comment × Nat × List LogEvent) :=
    if 0 < issue.commentCount then
      fetchAllPagesV0 (env.commentsOp repo.ownerLogin repo.name issue.number) fuel
    else some (.ok [], 0, [])
  match fr with
  | none => none
  | some (.fatal r, _, _) => some (.fatal r)
  | some (.ok cs, _, _) =>
    let lastCommenter : Option Str :=
      match lastOpt cs with
      | none => none
      | some c => some (c.user.getD "N/A".toList)
    let fromComments := (cs.map (fun c => findWcagScInText c.body)).flatten
    let wcag := dedupKeepFirst
      (fromComments ++ findWcagScInText issue.body ++ findWcagScInText (some issue.title))
    some (.cont { st1 with
      records := st1.records ++ [buildRecord env.extractedAt repo issue lastCommenter wcag] })

/-- The orchestrator loop over the issues of one repository. -/
def processIssues (env : Env) (fuel : Nat) (primary : Str) (adds : List Str)
    (repo : Repo) : ScanState → List Issue → Option StepRes
  | st, [] => some (.cont st)
  | st, i :: rest =>
    match processIssue env fuel primary adds repo st i with
    | none => none
    | some (.fatal r) => some (.fatal r)
    | some (.cont st2) => processIssues env fuel primary adds repo st2 rest

/-- The orchestrator loop over the repositories: fetch the issues of
each repository and process them, carrying the state to the next
repository. -/
def processRepos (env : Env) (fuel : Nat) (primary : Str) (adds : List Str) :
    ScanState → List Repo → Option StepRes
  | st, [] => some (.cont st)
  | st, repo :: rest =>
    match fetchAllPagesV0 (env.issuesOp repo.ownerLogin repo.name) fuel with
    | none => none
    | some (.fatal r, _, _) => some (.fatal r)
    | some (.ok issues, _, _) =>
      match processIssues env fuel primary adds repo st issues with
      | none => none
      | some (.fatal r) => some (.fatal r)
      | some (.cont st2) => processRepos env fuel primary adds st2 rest

/-- gatherAccessibilityIssues of the newer script: fetch the
repositories, return early with no output when there are none,
otherwise process every repository starting from the empty state and
return the pushed records. -/
def gatherScan (env : Env) (fuel : Nat) (primary : Str) (adds : List Str) :
    Option RunOut :=
  match fetchAllPagesV0 env.reposOp fuel with
  | none => none
  | some (.fatal r, _, _) => some (.fatal r)
  | some (.ok repos, _, _) =>
    if repos.length = 0 then some (.done []) else
    match processRepos env fuel primary adds ⟨[], []⟩ repos with
    | none => none
    | some (.fatal r) => some (.fatal r)
    | some (.cont st) => some (.done st.records)

/-- Whether a text contains two adjacent letters A (case-insensitive),
the condition under which the literal AA pattern has a match. -/
def hasAA : Str → Bool
  | [] => false
  | a :: r =>
    match r with
    | [] => false
    | b :: _ => (isA a && isA b) || hasAA r

/-- The persistent match cursors of the five module-level global regex
objects of WCAG_PATTERNS, one lastIndex per pattern. -/
structure RegexState where
  wcagIdx : Nat
  scIdx : Nat
  tripleIdx : Nat
  aaIdx : Nat
  aIdx : Nat
  deriving DecidableEq, Repr

/-- All cursors at position zero. -/
def resetState : RegexState := ⟨0, 0, 0, 0, 0⟩

/-- The character just before a cursor position, for the word-boundary
check of a scan started mid-text. -/
def prevChar (t : Str) (idx : Nat) : Option Char :=
  if idx = 0 then none else (t.drop (idx - 1)).head?

/-- The WCAG-pattern exec loop started at a cursor position. -/
def scanWCAGFrom (idx : Nat) (t : Str) : List Str :=
  scanWCAGAll (t.drop idx)

/-- The SC-pattern exec loop started at a cursor position. -/
def scanSCFrom (idx : Nat) (t : Str) : List Str :=
  scanSCAll (t.drop idx)

/-- The dotted-triple exec loop started at a cursor position. -/
def scanTripleFrom (idx : Nat) (t : Str) : List Str :=
  scanTripleGo (t.drop idx).length (prevChar t idx) (t.drop idx)

/-- The literal-AA exec loop started at a cursor position. -/
def scanAAFrom (idx : Nat) (t : Str) : List Str :=
  scanAAAll (t.drop idx)

/-- The literal-A exec loop started at a cursor position. -/
def scanAFrom (idx : Nat) (t : Str) : List Str :=
  scanAAll (t.drop idx)

/-- The matches of all five patterns when each exec loop starts at the
cursor recorded in the given regex state. -/
def execPatternsFrom (st : RegexState) (t : Str) : List Str :=
  scanWCAGFrom st.wcagIdx t ++ scanSCFrom st.scIdx t ++
  scanTripleFrom st.tripleIdx t ++ scanAAFrom st.aaIdx t ++ scanAFrom st.aIdx t

/-- findWcagScInText with the module-level regex state made explicit.
On absent or empty text the function returns early and the cursors are
untouched. Otherwise, the source resets every lastIndex to zero before
its exec loop, so the scans run from position zero whatever the
incoming cursors were, and each exec loop leaves its lastIndex at zero
again when it finishes with a failed match. -/
def findWcagScStateful (st : RegexState) (text : Option Str) :
    List Str × RegexState :=
  match text with
  | none => ([], st)
  | some t =>
    if t.isEmpty then ([], st)
    else (dedupKeepFirst ((execPatternsFrom resetState t).map normalizeMatch), resetState)

/-- Scan state instrumented with the source issue identifier of every
pushed record, for stating the deduplication invariant. -/
structure ScanStateTr where
  processed : List Nat
  records : List (Nat × ExportRecord)
  deriving DecidableEq, Repr

/-- Instrumented step result. -/
inductive StepResTr where
  | fatal (reset : Nat)
  | cont (st : ScanStateTr)
  deriving DecidableEq, Repr

/-- Instrumented run result. -/
inductive RunOutTr where
  | fatal (reset : Nat)
  | done (records : List (Nat × ExportRecord))
  deriving DecidableEq, Repr

/-- The per-issue step, instrumented: identical to processIssue except
that the pushed record is paired with the identifier of its source
issue. -/
def processIssueTr (env : Env) (fuel : Nat) (primary : Str) (adds : List Str)
    (repo : Repo) (st : ScanStateTr) (issue : Issue) : Option StepResTr :=
  if issue.pullRequest then some (.cont st) else
  if issue.id ∈ st.processed then some (.cont st) else
  let st1 : ScanStateTr := { st with processed := issue.id :: st.processed }
  if !includeIssue issue primary adds then some (.cont st1) else
  let fr : Option (FetchOut Comment × Nat × List LogEvent) :=
    if 0 < issue.commentCount then
      fetchAllPagesV0 (env.commentsOp repo.ownerLogin repo.name issue.number) fuel
    else some (.ok [], 0, [])
  match fr with
  | none => none
  | some (.fatal r, _, _) => some (.fatal r)
  | some (.ok cs, _, _) =>
    let lastCommenter : Option Str :=
      match lastOpt cs with
      | none => none
      | some c => some (c.user.getD "N/A".toList)
    let fromComments := (cs.map (fun c => findWcagScInText c.body)).flatten
    let wcag := dedupKeepFirst
      (fromComments ++ findWcagScInText issue.body ++ findWcagScInText (some issue.title))
    some (.cont { st1 with
      records := st1.records ++
        [(issue.id, buildRecord env.extractedAt repo issue lastCommenter wcag)] })

/-- The instrumented loop over the issues of one repository. -/
def processIssuesTr (env : Env) (fuel : Nat) (primary : Str) (adds : List Str)
    (repo : Repo) : ScanStateTr → List Issue → Option StepResTr
  | st, [] => some (.cont st)
  | st, i :: rest =>
    match processIssueTr env fuel primary adds repo st i with
    | none => none
    | some (.fatal r) => some (.fatal r)
    | some (.cont st2) => processIssuesTr env fuel primary adds repo st2 rest

/-- The instrumented loop over the repositories. -/
def processReposTr (env : Env) (fuel : Nat) (primary : Str) (adds : List Str) :
    ScanStateTr → List Repo → Option StepResTr
  | st, [] => some (.cont st)
  | st, repo :: rest =>
    match fetchAllPagesV0 (env.issuesOp repo.ownerLogin repo.name) fuel with
    | none => none
    | some (.fatal r, _, _) => some (.fatal r)
    | some (.ok issues, _, _) =>
      match processIssuesTr env fuel primary adds repo st issues with
      | none => none
      | some (.fatal r) => some (.fatal r)
      | some (.cont st2) => processReposTr env fuel primary adds st2 rest

/-- The instrumented run. -/
def gatherScanTr (env : Env) (fuel : Nat) (primary : Str) (adds : List Str) :
    Option RunOutTr :=
  match fetchAllPagesV0 env.reposOp fuel with
  | none => none
  | some (.fatal r, _, _) => some (.fatal r)
  | some (.ok repos, _, _) =>
    if repos.length = 0 then some (.done []) else
    match processReposTr env fuel primary adds ⟨[], []⟩ repos with
    | none => none
    | some (.fatal r) => some (.fatal r)
    | some (.cont st) => some (.done st.records)

/-- Drop the instrumentation from a state. -/
def projState (st : ScanStateTr) : ScanState :=
  ⟨st.processed, st.records.map Prod.snd⟩

/-- Drop the instrumentation from a step result. -/
def projStep : StepResTr → StepRes
  | .fatal r => .fatal r
  | .cont st => .cont (projState st)

/-- Drop the instrumentation from a run result. -/
def projRun : RunOutTr → RunOut
  | .fatal r => .fatal r
  | .done out => .done (out.map Prod.snd)

/-- The deduplication invariant of the instrumented state: the source
identifiers of the pushed records are pairwise distinct, and every one
of them has been recorded in the processed set. -/
def IdsOk (st : ScanStateTr) : Prop :=
  (st.records.map Prod.fst).Nodup ∧
  ∀ i ∈ st.records.map Prod.fst, i ∈ st.processed

/-- A paged operation serving two full pages of 100 items and a third
page of 40 items, the scenario named by the specification. -/
def threePageOp (page : Nat) : Except FetchErr (List Nat) :=
  .ok (if page = 1 then List.range 100
       else if page = 2 then (List.range 100).map (· + 100)
       else if page = 3 then (List.range 40).map (· + 200)
       else [])

/-- A paged operation that always reports rate-limit exhaustion with
reset time 42. -/
def rlOpNat : Nat → Except FetchErr (List Nat) :=
  fun _ => .error (.rateLimited 42)

/-- A paged operation that always reports not-found. -/
def nfOpNat : Nat → Except FetchErr (List Nat) :=
  fun _ => .error .notFound

/-- The repository of the end-to-end scenario. -/
def repoC2 : Repo :=
  { name := "repo-one".toList, ownerLogin := "org-one".toList, fork := false }

/-- The issue of the end-to-end scenario: one non-pull-request issue
labeled accessibility, body carrying the SC reference, zero comments. -/
def issueC2 : Issue :=
  { id := 101, number := 7, title := "Issue one".toList
  , body := some "see SC 1.4.3".toList
  , labels := ["accessibility".toList], pullRequest := false, commentCount := 0
  , state := "open".toList, user := some "alice".toList
  , createdAt := "2025-01-01T00:00:00Z".toList
  , updatedAt := "2025-01-02T00:00:00Z".toList
  , htmlUrl := "https://github.example/repo-one/issues/7".toList }

/-- The provider of the end-to-end scenario: one repository with the one
issue and no comments. -/
def envC2 : Env :=
  { reposOp := fun p => .ok (if p = 1 then [repoC2] else [])
  , issuesOp := fun _ _ p => .ok (if p = 1 then [issueC2] else [])
  , commentsOp := fun _ _ _ _ => .ok []
  , extractedAt := "2025-10-12T00:00:00Z".toList }

/-- The record the end-to-end scenario actually produces. -/
def recC2 : ExportRecord :=
  { wcagSc := some "SC 1.4.3; 1.4.3".toList
  , issueId := "repo-one-7".toList
  , issueTitle := "Issue one".toList
  , issueUrl := "https://github.example/repo-one/issues/7".toList
  , project := "repo-one".toList
  , status := "open".toList
  , priority := none, component := none, version := none
  , reporter := "alice".toList
  , created := "2025-01-01T00:00:00Z".toList
  , updated := "2025-01-02T00:00:00Z".toList
  , comments := 0
  , hasFork := "No".toList
  , lastCommenter := none
  , extractedAt := "2025-10-12T00:00:00Z".toList }

/-- The end-to-end provider with the same issue served twice by the
issues listing, simulating overlapping fetches yielding a duplicate. -/
def envC7 : Env :=
  { envC2 with issuesOp := fun _ _ p => .ok (if p = 1 then [issueC2, issueC2] else []) }

/-- The end-to-end provider with a rate-limited repository listing. -/
def envRL : Env :=
  { envC2 with reposOp := fun _ => .error (.rateLimited 42) }

/-- The end-to-end provider whose issues listing reports not-found. -/
def envNF : Env :=
  { envC2 with issuesOp := fun _ _ _ => .error .notFound }

/-- An issue carrying the accessibility label in mixed case and nothing
else that could trigger inclusion. -/
def issueMixed : Issue :=
  { issueC2 with
    id := 102, labels := ["Accessibility".toList],
    title := "Contrast issue".toList, body := none }

/-- An issue carrying the pull-request marker together with an
accessibility label and keyword-bearing title and body. -/
def issuePR : Issue :=
  { issueC2 with
    id := 103, pullRequest := true,
    title := "accessibility fix".toList, body := some "accessibility".toList }

/-! Helper lemmas. -/

/-- Rate-limit exhaustion is answered by an immediate fatal stop of the
fetch loop of the newer script, whatever its current state. -/
theorem fetchPagesV0_rateLimited {α : Type} (op : Nat → Except FetchErr (List α))
    (fuel page calls r : Nat) (acc : List α) (hf : 0 < fuel)
    (hop : op page = .error (.rateLimited r)) :
    fetchPagesV0 op fuel page acc calls = some (.fatal r, calls + 1, [.errRateLimit r]) := by
  obtain ⟨f, rfl⟩ : ∃ f, fuel = f + 1 := ⟨fuel - 1, by omega⟩
  simp [fetchPagesV0, hop]

/-- A not-found error is answered by a warning and a normal stop of the
fetch loop of the newer script, returning the accumulated items. -/
theorem fetchPagesV0_notFound {α : Type} (op : Nat → Except FetchErr (List α))
    (fuel page calls : Nat) (acc : List α) (hf : 0 < fuel)
    (hop : op page = .error .notFound) :
    fetchPagesV0 op fuel page acc calls = some (.ok acc, calls + 1, [.warnNotFound page]) := by
  obtain ⟨f, rfl⟩ : ∃ f, fuel = f + 1 := ⟨fuel - 1, by omega⟩
  simp [fetchPagesV0, hop]

/-- The dedup pass keeps an element of its input that is not among the
already-seen values. -/
theorem mem_dedupGo {a : Str} :
    ∀ (l seen : List Str), a ∈ l → a ∉ seen → a ∈ dedupGo seen l := by
  intro l
  induction l with
  | nil => intro seen h; cases h
  | cons x xs ih =>
    intro seen hmem hseen
    by_cases hx : x ∈ seen
    · have hax : a ≠ x := fun h => hseen (h ▸ hx)
      have : a ∈ xs := by
        rcases List.mem_cons.mp hmem with h | h
        · exact absurd h hax
        · exact h
      simpa [dedupGo, hx] using ih seen this hseen
    · rcases List.mem_cons.mp hmem with h | h
      · simp [dedupGo, hx, h]
      · by_cases hax : a = x
        · simp [dedupGo, hx, hax]
        · have : a ∉ x :: seen := by
            intro hc
            rcases List.mem_cons.mp hc with h' | h'
            · exact hax h'
            · exact hseen h'
          simp only [dedupGo, hx, if_neg]
          exact List.mem_cons_of_mem _ (ih (x :: seen) h this)

/-- The dedup pass keeps every element of its input. -/
theorem mem_dedupKeepFirst {a : Str} {l : List Str} (h : a ∈ l) :
    a ∈ dedupKeepFirst l :=
  mem_dedupGo l [] h (by simp)

/-! Claim theorems. -/

set_option maxRecDepth 20000 in
/-- Claim C1: evaluation of both fetchAllPages implementations at the
specified scenario of two full pages of 100 items and a page of 40
items. The newer script never increments the page, so its loop
refetches page 1 forever and never returns, for any amount of fuel; the
older script increments the page but stops only on an empty page, so it
performs four calls, not three, to return the 240 items. -/
theorem c1_pagination_eval :
    (∀ fuel acc calls, fetchPagesV0 threePageOp fuel 1 acc calls = none) ∧
    fetchAllPagesV1 threePageOp 10 = some (List.range 240, 4, []) := by
  constructor
  · intro fuel
    induction fuel with
    | zero => intro acc calls; rfl
    | succ f ih =>
      intro acc calls
      have h1 : threePageOp 1 = .ok (List.range 100) := rfl
      simp only [fetchPagesV0, h1, List.length_range]
      norm_num
      exact ih _ _
  · decide

/-- Claim C3 (counterexample): the fetchAllPages of the older script
handles a rate-limited call like any other error: it logs a generic
page-fetch error and returns the accumulated items normally, instead of
reporting the reset time and terminating the process. -/
theorem c3_counterexample :
    fetchAllPagesV1 rlOpNat 5 = some ([], 1, [.errFetchPage 1]) := by
  decide

/-- Claim C3 (amended): in the newer script a rate-limit exhaustion
signal on any call of any paged fetch makes the whole run fatal at
once: the loop stops after exactly that call with the fatal outcome
carrying the reset time and the rate-limit report, with no retry and no
further call; and a run whose first fetch is rate limited ends fatally
with that reset time. -/
theorem c3_rate_limit_fatal :
    (∀ (α : Type) (op : Nat → Except FetchErr (List α)) (fuel page calls r : Nat)
        (acc : List α), 0 < fuel → op page = .error (.rateLimited r) →
        fetchPagesV0 op fuel page acc calls = some (.fatal r, calls + 1, [.errRateLimit r])) ∧
    (∀ (env : Env) (fuel : Nat) (primary : Str) (adds : List Str) (r : Nat),
        0 < fuel → env.reposOp 1 = .error (.rateLimited r) →
        gatherScan env fuel primary adds = some (.fatal r)) := by
  refine ⟨fun α op fuel page calls r acc hf hop =>
    fetchPagesV0_rateLimited op fuel page calls r acc hf hop, ?_⟩
  intro env fuel primary adds r hf hop
  have h := fetchPagesV0_rateLimited env.reposOp fuel 1 0 r [] hf hop
  simp [gatherScan, fetchAllPagesV0, h]

/-- Claim C3 (witness): the amended theorem applied to a concrete
rate-limited operation and to a concrete provider whose repository
listing is rate limited. -/
theorem c3_witness :
    fetchPagesV0 rlOpNat 5 1 ([] : List Nat) 0 = some (.fatal 42, 1, [.errRateLimit 42]) ∧
    gatherScan envRL 5 "accessibility".toList [] = some (.fatal 42) :=
  ⟨c3_rate_limit_fatal.1 Nat rlOpNat 5 1 0 42 [] (by decide) rfl,
   c3_rate_limit_fatal.2 envRL 5 "accessibility".toList [] 42 (by decide) rfl⟩

/-- Claim C6: an issue carrying the pull-request marker is skipped by
the per-issue step before the dedup, classifier, comment and record
logic: whatever the provider, the fuel, the labels and the current
state, the state comes back unchanged, so no ExportRecord is produced
for it. -/
theorem c6_pr_never_exported (env : Env) (fuel : Nat) (primary : Str)
    (adds : List Str) (repo : Repo) (st : ScanState) (issue : Issue)
    (h : issue.pullRequest = true) :
    processIssue env fuel primary adds repo st issue = some (.cont st) := by
  simp [processIssue, h]

/-- Claim C6 (witness): the step applied to a concrete pull request
carrying an accessibility label, keyword title and keyword body. -/
theorem c6_witness :
    processIssue envC2 10 "accessibility".toList [] repoC2 ⟨[], []⟩ issuePR =
      some (.cont ⟨[], []⟩) :=
  c6_pr_never_exported envC2 10 "accessibility".toList [] repoC2 ⟨[], []⟩ issuePR rfl

/-- Claim C8: a not-found error makes the fetch loop of the newer
script log a warning and stop with the items accumulated so far, an
ordinary non-fatal outcome (the empty list when nothing was accumulated
yet); and the repository loop of the orchestrator treats a repository
whose issues listing is not found exactly like a repository with no
issues, continuing with the remaining repositories in the same state. -/
theorem c8_not_found_recover :
    (∀ (α : Type) (op : Nat → Except FetchErr (List α)) (fuel page calls : Nat)
        (acc : List α), 0 < fuel → op page = .error .notFound →
        fetchPagesV0 op fuel page acc calls = some (.ok acc, calls + 1, [.warnNotFound page])) ∧
    (∀ (env : Env) (fuel : Nat) (primary : Str) (adds : List Str) (st : ScanState)
        (repo : Repo) (rest : List Repo),
        0 < fuel → env.issuesOp repo.ownerLogin repo.name 1 = .error .notFound →
        processRepos env fuel primary adds st (repo :: rest) =
          processRepos env fuel primary adds st rest) := by
  refine ⟨fun α op fuel page calls acc hf hop =>
    fetchPagesV0_notFound op fuel page calls acc hf hop, ?_⟩
  intro env fuel primary adds st repo rest hf hop
  have h := fetchPagesV0_notFound (env.issuesOp repo.ownerLogin repo.name) fuel 1 0 [] hf hop
  simp [processRepos, fetchAllPagesV0, h, processIssues]

/-- Claim C8 (witness): the theorem applied to a concrete not-found
operation on its first page, returning zero items non-fatally, and to a
concrete provider whose issues listing is not found. -/
theorem c8_witness :
    fetchPagesV0 nfOpNat 5 1 ([] : List Nat) 0 = some (.ok [], 1, [.warnNotFound 1]) ∧
    processRepos envNF 5 "accessibility".toList [] ⟨[], []⟩ [repoC2] =
      processRepos envNF 5 "accessibility".toList [] ⟨[], []⟩ [] :=
  ⟨c8_not_found_recover.1 Nat nfOpNat 5 1 0 [] (by decide) rfl,
   c8_not_found_recover.2 envNF 5 "accessibility".toList [] ⟨[], []⟩ repoC2 [] (by decide) rfl⟩

/-- Claim C9: findWcagScInText answers absent input (null or undefined)
and the empty string with the empty result, through its early guard,
raising nothing. -/
theorem c9_empty_input :
    findWcagScInText none = [] ∧ findWcagScInText (some []) = [] :=
  ⟨rfl, rfl⟩

/-- Claim C10: the extractor is deterministic and stateless across
calls. Whatever the persistent cursors of the five global regex objects
hold when a call starts, the source resets every lastIndex to zero
before scanning, so the returned matches depend only on the argument
text and coincide with the pure extractor. -/
theorem c10_stateless (st st' : RegexState) (text : Option Str) :
    (findWcagScStateful st text).1 = (findWcagScStateful st' text).1 ∧
    (findWcagScStateful st text).1 = findWcagScInText text := by
  cases text with
  | none => exact ⟨rfl, rfl⟩
  | some t =>
    by_cases h : t.isEmpty
    · constructor <;> simp [findWcagScStateful, findWcagScInText, h]
    · constructor <;>
        simp [findWcagScStateful, findWcagScInText, h, execPatternsFrom, resetState,
          scanWCAGFrom, scanSCFrom, scanTripleFrom, scanAAFrom, scanAFrom, prevChar,
          wcagMatches, scanTripleAll]

set_option maxRecDepth 20000 in
/-- Claim C2 (counterexample): the end-to-end scenario of one
repository with one non-pull-request issue labeled accessibility, body
carrying one SC reference and zero comments produces exactly one
record, but its WCAG SC field is not the single SC token: the bare
dotted-triple pattern also fires inside the SC match, so the field
joins both tokens. -/
theorem c2_counterexample :
    gatherScan envC2 10 "accessibility".toList [] = some (.done [recC2]) ∧
    recC2.wcagSc ≠ some "SC 1.4.3".toList :=
  ⟨by decide, by decide⟩

set_option maxRecDepth 20000 in
/-- Claim C2 (amended): the end-to-end scenario produces exactly one
record; its WCAG SC field joins the SC match and the dotted-triple
match found inside it, and its Last Commenter field is null. -/
theorem c2_end_to_end :
    gatherScan envC2 10 "accessibility".toList [] = some (.done [recC2]) ∧
    recC2.wcagSc = some "SC 1.4.3; 1.4.3".toList ∧
    recC2.lastCommenter = none :=
  ⟨by decide, by decide, by decide⟩

/-- Claim C4: for every non-pull-request issue the classifier of the
newer script includes the issue exactly when its label set carries the
primary label or one of the additional labels up to case, or its title
or present body contains the keyword substring case-insensitively. -/
theorem c4_classifier_iff (issue : Issue) (primary : Str) (adds : List Str)
    (_hpr : issue.pullRequest = false) :
    includeIssue issue primary adds = true ↔
      ((∃ l ∈ issue.labels, lowerStr l = lowerStr primary ∨
          ∃ a ∈ adds, lowerStr l = lowerStr a) ∨
       (substrB "accessibility".toList (lowerStr issue.title) = true ∨
        ∃ b, issue.body = some b ∧
          substrB "accessibility".toList (lowerStr b) = true)) := by
  unfold includeIssue hasRelevantLabel keywordFound labelNamesLower
  cases hb : issue.body with
  | none =>
    simp only [hb, Bool.or_eq_true, List.any_eq_true, List.mem_map, beq_iff_eq]
    constructor
    · rintro ((⟨y, ⟨l, hl, rfl⟩, hy⟩ | ⟨a, ha, y, ⟨l, hl, rfl⟩, hy⟩) | hk)
      · exact Or.inl ⟨l, hl, Or.inl hy⟩
      · exact Or.inl ⟨l, hl, Or.inr ⟨a, ha, hy⟩⟩
      · rcases hk with hk | hk
        · exact Or.inr (Or.inl hk)
        · cases hk
    · rintro (⟨l, hl, hy | ⟨a, ha, hy⟩⟩ | (hk | ⟨b, hb', _⟩))
      · exact Or.inl (Or.inl ⟨lowerStr l, ⟨l, hl, rfl⟩, hy⟩)
      · exact Or.inl (Or.inr ⟨a, ha, lowerStr l, ⟨l, hl, rfl⟩, hy⟩)
      · exact Or.inr (Or.inl hk)
      · cases hb'
  | some b =>
    simp only [hb, Bool.or_eq_true, List.any_eq_true, List.mem_map, beq_iff_eq]
    constructor
    · rintro ((⟨y, ⟨l, hl, rfl⟩, hy⟩ | ⟨a, ha, y, ⟨l, hl, rfl⟩, hy⟩) | hk)
      · exact Or.inl ⟨l, hl, Or.inl hy⟩
      · exact Or.inl ⟨l, hl, Or.inr ⟨a, ha, hy⟩⟩
      · rcases hk with hk | hk
        · exact Or.inr (Or.inl hk)
        · exact Or.inr (Or.inr ⟨b, rfl, hk⟩)
    · rintro (⟨l, hl, hy | ⟨a, ha, hy⟩⟩ | (hk | ⟨b', hb', hs⟩))
      · exact Or.inl (Or.inl ⟨lowerStr l, ⟨l, hl, rfl⟩, hy⟩)
      · exact Or.inl (Or.inr ⟨a, ha, lowerStr l, ⟨l, hl, rfl⟩, hy⟩)
      · exact Or.inr (Or.inl hk)
      · cases hb'
        exact Or.inr (Or.inr hs)

/-- Claim C4 (witness): the classifier applied to an issue carrying
the label Accessibility in mixed case with the lowercase primary label,
included through the case-insensitive label comparison. -/
theorem c4_witness :
    includeIssue issueMixed "accessibility".toList [] = true :=
  (c4_classifier_iff issueMixed "accessibility".toList [] rfl).mpr
    (Or.inl ⟨"Accessibility".toList, by decide, Or.inl (by decide)⟩)

/-- Adjacent letters A survive prepending a character. -/
theorem hasAA_cons (c : Char) {r : Str} (h : hasAA r = true) :
    hasAA (c :: r) = true := by
  cases r with
  | nil => simp [hasAA] at h
  | cons b r' => simp [hasAA] at h ⊢; tauto

/-- A list with a prefix ending in two letters A has adjacent letters
A. -/
theorem isPrefixB_append_AA :
    ∀ (pre l : Str), isPrefixB (pre ++ "AA".toList) l = true → hasAA l = true := by
  intro pre
  induction pre with
  | nil =>
    intro l h
    match l with
    | [] => simp [isPrefixB] at h
    | [a] => simp [isPrefixB] at h
    | a :: b :: r =>
      simp only [List.nil_append, isPrefixB, Bool.and_eq_true, beq_iff_eq, and_true] at h
      obtain ⟨rfl, rfl⟩ := h
      simp [hasAA, isA]
  | cons p pre' ih =>
    intro l h
    match l with
    | [] => simp [isPrefixB] at h
    | c :: r =>
      simp only [List.cons_append, isPrefixB, Bool.and_eq_true] at h
      exact hasAA_cons c (ih r h.2)

/-- Any text containing the phrase WCAG 2.1 AA has adjacent letters
A. -/
theorem substr_wcagAA_hasAA :
    ∀ t : Str, substrB "WCAG 2.1 AA".toList t = true → hasAA t = true := by
  intro t
  induction t with
  | nil => intro h; simp [substrB] at h
  | cons c rest ih =>
    intro h
    rw [substrB, Bool.or_eq_true] at h
    rcases h with h | h
    · have : "WCAG 2.1 AA".toList = "WCAG 2.1 ".toList ++ "AA".toList := by decide
      exact isPrefixB_append_AA "WCAG 2.1 ".toList (c :: rest) (this ▸ h)
    · exact hasAA_cons c (ih h)

/-- Whenever a text has adjacent letters A, the exec loop of the
literal AA pattern, run with enough fuel, finds a match made of two
letters A. -/
theorem scanAAGo_finds :
    ∀ (fuel : Nat) (t : Str), t.length ≤ fuel → hasAA t = true →
      ∃ m ∈ scanAAGo fuel t, ∃ a b, m = [a, b] ∧ isA a = true ∧ isA b = true := by
  intro fuel
  induction fuel with
  | zero =>
    intro t hlen hAA
    match t with
    | [] => simp [hasAA] at hAA
    | _ :: _ => simp at hlen
  | succ f ih =>
    intro t hlen hAA
    match t with
    | [] => simp [hasAA] at hAA
    | [a] => simp [hasAA] at hAA
    | a :: b :: r =>
      by_cases hab : isA a && isA b
      · refine ⟨[a, b], ?_, a, b, rfl, ?_, ?_⟩
        · simp [scanAAGo, hab]
        · exact (Bool.and_eq_true .. ▸ hab).1
        · exact (Bool.and_eq_true .. ▸ hab).2
      · have hAA' : hasAA (b :: r) = true := by
          rw [hasAA] at hAA
          simp only [Bool.or_eq_true] at hAA
          rcases hAA with h | h
          · exact absurd h hab
          · exact h
        have hlen' : (b :: r).length ≤ f := by
          simp at hlen ⊢; omega
        obtain ⟨m, hm, hshape⟩ := ih (b :: r) hlen' hAA'
        refine ⟨m, ?_, hshape⟩
        simpa [scanAAGo, hab] using hm

/-- Normalization sends a match of two letters A to the token AA. -/
theorem normalize_isA_pair {a b : Char} (ha : isA a = true) (hb : isA b = true) :
    normalizeMatch [a, b] = "AA".toList := by
  have ha' : a = 'A' ∨ a = 'a' := by simpa [isA] using ha
  have hb' : b = 'A' ∨ b = 'a' := by simpa [isA] using hb
  rcases ha' with rfl | rfl <;> rcases hb' with rfl | rfl <;> decide

/-- Claim C5 (counterexample): the text WCAG 2.1 AAA contains the
substring WCAG 2.1 AA, but the extractor does not return the token
WCAG 2.1 AA for it: the greedy first pattern captures all three
letters A, producing WCAG 2.1 AAA instead. -/
theorem c5_counterexample :
    substrB "WCAG 2.1 AA".toList "WCAG 2.1 AAA".toList = true ∧
    "WCAG 2.1 AA".toList ∉ findWcagScInText (some "WCAG 2.1 AAA".toList) := by
  constructor
  · decide
  · decide

/-- Claim C5 (amended): every text containing the phrase WCAG 2.1 AA
yields the token AA (overlap with the first pattern is not
suppressed), and on the exact phrase the extractor returns both the
token WCAG 2.1 AA and the token AA; the full token is however not
guaranteed for every containing text. -/
theorem c5_overlap_retained :
    (∀ t : Str, substrB "WCAG 2.1 AA".toList t = true →
        "AA".toList ∈ findWcagScInText (some t)) ∧
    "WCAG 2.1 AA".toList ∈ findWcagScInText (some "WCAG 2.1 AA".toList) ∧
    "AA".toList ∈ findWcagScInText (some "WCAG 2.1 AA".toList) := by
  refine ⟨?_, by decide, by decide⟩
  intro t h
  have hAA := substr_wcagAA_hasAA t h
  have ht : ¬ t.isEmpty := by
    cases t with
    | nil => simp [substrB] at h
    | cons c r => simp
  obtain ⟨m, hm, a, b, rfl, ha, hb⟩ := scanAAGo_finds t.length t le_rfl hAA
  rw [findWcagScInText]
  simp only [ht, if_false, Bool.false_eq_true]
  apply mem_dedupKeepFirst
  rw [List.mem_map]
  refine ⟨[a, b], ?_, normalize_isA_pair ha hb⟩
  have : [a, b] ∈ scanAAAll t := hm
  simp only [wcagMatches, List.mem_append]
  tauto

/-- Claim C5 (witness): the universal part of the amended theorem
applied to a concrete text containing the phrase. -/
theorem c5_witness :
    "AA".toList ∈ findWcagScInText (some "intro WCAG 2.1 AA outro".toList) :=
  c5_overlap_retained.1 "intro WCAG 2.1 AA outro".toList (by decide)

/-- The instrumented per-issue step projects onto the per-issue step of
the source. -/
theorem processIssueTr_proj (env : Env) (fuel : Nat) (primary : Str)
    (adds : List Str) (repo : Repo) (st : ScanStateTr) (issue : Issue) :
    processIssue env fuel primary adds repo (projState st) issue =
      (processIssueTr env fuel primary adds repo st issue).map projStep := by
  unfold processIssue processIssueTr
  by_cases hpr : issue.pullRequest
  · simp [hpr, projStep]
  · by_cases hid : issue.id ∈ st.processed
    · simp [hpr, hid, projState, projStep]
    · by_cases hinc : includeIssue issue primary adds
      · simp only [hpr, hid, hinc, projState, Bool.false_eq_true, if_false,
          Bool.not_true, Bool.false_eq_true, if_true, if_neg, ite_false]
        cases hfr : (if 0 < issue.commentCount then
            fetchAllPagesV0 (env.commentsOp repo.ownerLogin repo.name issue.number) fuel
          else some (.ok [], 0, [])) with
        | none => simp [hpr, hid, hinc, projState, hfr]
        | some v =>
          obtain ⟨fo, calls, log⟩ := v
          cases fo with
          | fatal r => simp [hpr, hid, hinc, projState, hfr, projStep]
          | ok cs => simp [hpr, hid, hinc, projState, hfr, projStep]
      · simp [hpr, hid, hinc, projState, projStep]

/-- The instrumented issues loop projects onto the issues loop of the
source. -/
theorem processIssuesTr_proj (env : Env) (fuel : Nat) (primary : Str)
    (adds : List Str) (repo : Repo) :
    ∀ (issues : List Issue) (st : ScanStateTr),
      processIssues env fuel primary adds repo (projState st) issues =
        (processIssuesTr env fuel primary adds repo st issues).map projStep := by
  intro issues
  induction issues with
  | nil => intro st; rfl
  | cons i rest ih =>
    intro st
    rw [processIssues, processIssuesTr, processIssueTr_proj]
    cases h : processIssueTr env fuel primary adds repo st i with
    | none => rfl
    | some s =>
      cases s with
      | fatal r => rfl
      | cont st2 => simpa [projStep] using ih st2

/-- The instrumented repositories loop projects onto the repositories
loop of the source. -/
theorem processReposTr_proj (env : Env) (fuel : Nat) (primary : Str)
    (adds : List Str) :
    ∀ (repos : List Repo) (st : ScanStateTr),
      processRepos env fuel primary adds (projState st) repos =
        (processReposTr env fuel primary adds st repos).map projStep := by
  intro repos
  induction repos with
  | nil => intro st; rfl
  | cons repo rest ih =>
    intro st
    rw [processRepos, processReposTr]
    cases hfetch : fetchAllPagesV0 (env.issuesOp repo.ownerLogin repo.name) fuel with
    | none => rfl
    | some v =>
      obtain ⟨fo, calls, log⟩ := v
      cases fo with
      | fatal r => rfl
      | ok issues =>
        simp only
        rw [processIssuesTr_proj]
        cases h : processIssuesTr env fuel primary adds repo st issues with
        | none => rfl
        | some s =>
          cases s with
          | fatal r => rfl
          | cont st2 => simpa [projStep] using ih st2

/-- The instrumented run projects onto the run of the source. -/
theorem gatherScanTr_proj (env : Env) (fuel : Nat) (primary : Str)
    (adds : List Str) :
    gatherScan env fuel primary adds =
      (gatherScanTr env fuel primary adds).map projRun := by
  rw [gatherScan, gatherScanTr]
  cases hfetch : fetchAllPagesV0 env.reposOp fuel with
  | none => rfl
  | some v =>
    obtain ⟨fo, calls, log⟩ := v
    cases fo with
    | fatal r => rfl
    | ok repos =>
      simp only
      by_cases hlen : repos.length = 0
      · simp [hlen, projRun]
      · simp only [hlen, if_neg, ite_false]
        have h0 : projState ⟨[], []⟩ = (⟨[], []⟩ : ScanState) := rfl
        rw [← h0, processReposTr_proj]
        cases h : processReposTr env fuel primary adds ⟨[], []⟩ repos with
        | none => simp [hlen]
        | some s =>
          cases s with
          | fatal r => simp [hlen, projStep, projRun]
          | cont st2 => simp [hlen, projStep, projRun, projState]

/-- The instrumented per-issue step preserves the deduplication
invariant. -/
theorem processIssueTr_inv (env : Env) (fuel : Nat) (primary : Str)
    (adds : List Str) (repo : Repo) (st : ScanStateTr) (issue : Issue)
    (st2 : ScanStateTr)
    (h : processIssueTr env fuel primary adds repo st issue = some (.cont st2))
    (hinv : IdsOk st) : IdsOk st2 := by
  unfold processIssueTr at h
  by_cases hpr : issue.pullRequest
  · simp only [hpr, if_true] at h
    cases h; exact hinv
  · simp only [hpr, Bool.false_eq_true, if_false] at h
    by_cases hid : issue.id ∈ st.processed
    · simp only [hid, if_true] at h
      cases h; exact hinv
    · simp only [hid, if_false] at h
      have hmono : IdsOk ⟨issue.id :: st.processed, st.records⟩ :=
        ⟨hinv.1, fun i hi => List.mem_cons_of_mem _ (hinv.2 i hi)⟩
      by_cases hinc : includeIssue issue primary adds
      · simp only [hinc, Bool.not_true, Bool.false_eq_true, if_false] at h
        cases hfr : (if 0 < issue.commentCount then
            fetchAllPagesV0 (env.commentsOp repo.ownerLogin repo.name issue.number) fuel
          else some (.ok [], 0, [])) with
        | none => rw [hfr] at h; cases h
        | some v =>
          obtain ⟨fo, calls, log⟩ := v
          cases fo with
          | fatal r => rw [hfr] at h; cases h
          | ok cs =>
            rw [hfr] at h
            simp only [Option.some.injEq, StepResTr.cont.injEq] at h
            subst h
            constructor
            · simp only [List.map_append, List.map_cons, List.map_nil]
              rw [List.nodup_append]
              refine ⟨hinv.1, List.nodup_singleton _, ?_⟩
              intro i hi hi'
              simp only [List.mem_singleton] at hi'
              subst hi'
              exact hid (hinv.2 _ hi)
            · intro i hi
              simp only [List.map_append, List.map_cons, List.map_nil,
                List.mem_append, List.mem_singleton] at hi
              rcases hi with hi | rfl
              · exact List.mem_cons_of_mem _ (hinv.2 i hi)
              · exact List.mem_cons_self _ _
      · simp only [hinc, Bool.not_false, if_true] at h
        cases h; exact hmono

/-- The instrumented issues loop preserves the deduplication
invariant. -/
theorem processIssuesTr_inv (env : Env) (fuel : Nat) (primary : Str)
    (adds : List Str) (repo : Repo) :
    ∀ (issues : List Issue) (st st2 : ScanStateTr),
      processIssuesTr env fuel primary adds repo st issues = some (.cont st2) →
      IdsOk st → IdsOk st2 := by
  intro issues
  induction issues with
  | nil =>
    intro st st2 h hinv
    rw [processIssuesTr] at h
    cases h; exact hinv
  | cons i rest ih =>
    intro st st2 h hinv
    rw [processIssuesTr] at h
    cases hstep : processIssueTr env fuel primary adds repo st i with
    | none => rw [hstep] at h; cases h
    | some s =>
      cases s with
      | fatal r => rw [hstep] at h; cases h
      | cont stm =>
        rw [hstep] at h
        exact ih stm st2 h (processIssueTr_inv env fuel primary adds repo st i stm hstep hinv)

/-- The instrumented repositories loop preserves the deduplication
invariant. -/
theorem processReposTr_inv (env : Env) (fuel : Nat) (primary : Str)
    (adds : List Str) :
    ∀ (repos : List Repo) (st st2 : ScanStateTr),
      processReposTr env fuel primary adds st repos = some (.cont st2) →
      IdsOk st → IdsOk st2 := by
  intro repos
  induction repos with
  | nil =>
    intro st st2 h hinv
    rw [processReposTr] at h
    cases h; exact hinv
  | cons repo rest ih =>
    intro st st2 h hinv
    rw [processReposTr] at h
    cases hfetch : fetchAllPagesV0 (env.issuesOp repo.ownerLogin repo.name) fuel with
    | none => rw [hfetch] at h; cases h
    | some v =>
      obtain ⟨fo, calls, log⟩ := v
      cases fo with
      | fatal r => rw [hfetch] at h; cases h
      | ok issues =>
        rw [hfetch] at h
        simp only at h
        cases hrun : processIssuesTr env fuel primary adds repo st issues with
        | none => rw [hrun] at h; cases h
        | some s =>
          cases s with
          | fatal r => rw [hrun] at h; cases h
          | cont stm =>
            rw [hrun] at h
            exact ih stm st2 h
              (processIssuesTr_inv env fuel primary adds repo issues st stm hrun hinv)

/-- Claim C7: whenever a run completes, the source issue identifiers of
its records are pairwise distinct, and forgetting the instrumentation
yields exactly the records of the source run; duplicates delivered by
the listings are processed at most once. -/
theorem c7_unique_ids (env : Env) (fuel : Nat) (primary : Str)
    (adds : List Str) (out : List (Nat × ExportRecord))
    (h : gatherScanTr env fuel primary adds = some (.done out)) :
    (out.map Prod.fst).Nodup ∧
    gatherScan env fuel primary adds = some (.done (out.map Prod.snd)) := by
  constructor
  · rw [gatherScanTr] at h
    cases hfetch : fetchAllPagesV0 env.reposOp fuel with
    | none => rw [hfetch] at h; cases h
    | some v =>
      obtain ⟨fo, calls, log⟩ := v
      cases fo with
      | fatal r => rw [hfetch] at h; cases h
      | ok repos =>
        rw [hfetch] at h
        simp only at h
        by_cases hlen : repos.length = 0
        · rw [if_pos hlen] at h
          cases h
          simp
        · rw [if_neg hlen] at h
          cases hrun : processReposTr env fuel primary adds ⟨[], []⟩ repos with
          | none => rw [hrun] at h; cases h
          | some s =>
            cases s with
            | fatal r => rw [hrun] at h; cases h
            | cont st =>
              rw [hrun] at h
              simp only [Option.some.injEq, RunOutTr.done.injEq] at h
              subst h
              have := processReposTr_inv env fuel primary adds repos ⟨[], []⟩ st hrun
                ⟨List.nodup_nil, by simp⟩
              exact this.1
  · rw [gatherScanTr_proj, h]
    rfl

/-- Claim C7 (witness): the theorem applied to a provider whose issues
listing delivers the same issue twice; only one record results. -/
theorem c7_witness :
    (([(101, recC2)].map Prod.fst).Nodup) ∧
    gatherScan envC7 10 "accessibility".toList [] =
      some (.done ([(101, recC2)].map Prod.snd)) :=
  c7_unique_ids envC7 10 "accessibility".toList [] [(101, recC2)] (by decide)

end GithubScanner
